import Mathlib

/-!
Verification of the provider cluster-resource manager.

This file embeds, as executable Lean definitions, the parts of the repository
that the verified properties speak about:

- the IP sharing-key derivation (cluster/util, function MakeIPSharingKey),
  including a bit-faithful SHA-256 and unpadded base32hex encoding;
- the reservation constructor (cluster, function newReservation);
- the reservation registry and inventory tracker, the exec backend error
  translation, and the hostname allocation service.  Their implementations are
  not part of the sources at hand (only their interfaces, tests and callers
  are), so they are modelled from the specification; each such definition says
  so in its doc comment.
-/

namespace Provider

/-- Lease identifier: owner, dseq, gseq, oseq, provider. -/
structure LeaseID where
  owner : String
  dseq : Nat
  gseq : Nat
  oseq : Nat
  provider : String
  deriving DecidableEq

/-- One character of the allowed IP endpoint-name class of the source
regular expression: lower-case ASCII letter, digit, or hyphen. -/
def isAllowedIPNameChar (c : Char) : Bool :=
  ('a' ≤ c && c ≤ 'z') || ('0' ≤ c && c ≤ '9') || (c == '-')

/-- Embeds the anchored source regular expression over the whole string:
a string matches iff it is nonempty and all of its characters are in the
allowed class. -/
def allowedIPEndpointNameMatches (s : String) : Bool :=
  !s.data.isEmpty && s.data.all isAllowedIPNameChar

/-- UTF-8 encoding of a single character, as Go produces when hashing the
bytes of a string. -/
def charUTF8 (c : Char) : List Nat :=
  let n := c.toNat
  if n < 128 then [n]
  else if n < 2048 then [192 + n / 64, 128 + n % 64]
  else if n < 65536 then [224 + n / 4096, 128 + (n / 64) % 64, 128 + n % 64]
  else [240 + n / 262144, 128 + (n / 4096) % 64, 128 + (n / 64) % 64, 128 + n % 64]

/-- The UTF-8 bytes of a string. -/
def strBytes (s : String) : List Nat := s.data.flatMap charUTF8

/-- Truncation to a 32-bit word. -/
def w32 (n : Nat) : Nat := n % 4294967296

/-- Rotation of a 32-bit word to the right by n positions. -/
def rotr32 (n x : Nat) : Nat := w32 (Nat.lor (x >>> n) (x <<< (32 - n)))

/-- Logical right shift. -/
def shr32 (n x : Nat) : Nat := x >>> n

/-- SHA-256 big sigma 0. -/
def bSig0 (x : Nat) : Nat := Nat.xor (rotr32 2 x) (Nat.xor (rotr32 13 x) (rotr32 22 x))

/-- SHA-256 big sigma 1. -/
def bSig1 (x : Nat) : Nat := Nat.xor (rotr32 6 x) (Nat.xor (rotr32 11 x) (rotr32 25 x))

/-- SHA-256 small sigma 0. -/
def sSig0 (x : Nat) : Nat := Nat.xor (rotr32 7 x) (Nat.xor (rotr32 18 x) (shr32 3 x))

/-- SHA-256 small sigma 1. -/
def sSig1 (x : Nat) : Nat := Nat.xor (rotr32 17 x) (Nat.xor (rotr32 19 x) (shr32 10 x))

/-- SHA-256 choose function; the complement is taken inside 32 bits. -/
def chFun (x y z : Nat) : Nat :=
  Nat.xor (Nat.land x y) (Nat.land (Nat.xor x 4294967295) z)

/-- SHA-256 majority function. -/
def majFun (x y z : Nat) : Nat :=
  Nat.xor (Nat.land x y) (Nat.xor (Nat.land x z) (Nat.land y z))

/-- The table of 64 round constants of the SHA-256 compression function of
the Go standard library, in decimal. -/
def shaK : List Nat :=
  [1116352408, 1899447441, 3049323471, 3921009573, 961987163,
   1508970993, 2453635748, 2870763221, 3624381080, 310598401,
   607225278, 1426881987, 1925078388, 2162078206, 2614888103,
   3248222580, 3835390401, 4022224774, 264347078, 604807628,
   770255983, 1249150122, 1555081692, 1996064986, 2554220882,
   2821834349, 2952996808, 3210313671, 3336571891, 3584528711,
   113926993, 338241895, 666307205, 773529912, 1294757372,
   1396182291, 1695183700, 1986661051, 2177026350, 2456956037,
   2730485921, 2820302411, 3259730800, 3345764771, 3516065817,
   3600352804, 4094571909, 275423344, 430227734, 506948616,
   659060556, 883997877, 958139571, 1322822218, 1537002063,
   1747873779, 1955562222, 2024104815, 2227730452, 2361852424,
   2428436474, 2756734187, 3204031479, 3329325298]

/-- The eight 32-bit words of a SHA-256 state. -/
structure Hash8 where
  a : Nat
  b : Nat
  c : Nat
  d : Nat
  e : Nat
  f : Nat
  g : Nat
  h : Nat
  deriving DecidableEq

/-- The initial SHA-256 word state, in decimal. -/
def shaInit : Hash8 :=
  ⟨1779033703, 3144134277, 1013904242, 2773480762,
   1359893119, 2600822924, 528734635, 1541459225⟩

/-- One SHA-256 compression round; the pair carries the round constant and the
scheduled message word. -/
def compressRound (st : Hash8) (kw : Nat × Nat) : Hash8 :=
  let t1 := w32 (st.h + bSig1 st.e + chFun st.e st.f st.g + kw.1 + kw.2)
  let t2 := w32 (bSig0 st.a + majFun st.a st.b st.c)
  ⟨w32 (t1 + t2), st.a, st.b, st.c, w32 (st.d + t1), st.e, st.f, st.g⟩

/-- Extends the 16 message words by the given number of scheduled words. -/
def extendSchedule : Nat → List Nat → List Nat
  | 0, w => w
  | k + 1, w =>
    let prev := extendSchedule k w
    prev ++ [w32 (sSig1 (prev.getD (prev.length - 2) 0) + prev.getD (prev.length - 7) 0 +
      sSig0 (prev.getD (prev.length - 15) 0) + prev.getD (prev.length - 16) 0)]

/-- Splits a list into consecutive chunks of n + 1 elements; the final chunk
may be shorter. -/
def chunkList (n : Nat) : List α → List (List α)
  | [] => []
  | a :: l => ((a :: l).take (n + 1)) :: chunkList n ((a :: l).drop (n + 1))
termination_by l => l.length
decreasing_by simp [List.length_drop]; omega

/-- Big-endian word value of a list of bytes. -/
def bytesToWord (bs : List Nat) : Nat :=
  bs.foldl (fun acc b => 256 * acc + b) 0

/-- The 16 big-endian 32-bit words of a 64-byte block. -/
def blockWords (block : List Nat) : List Nat :=
  (chunkList 3 block).map bytesToWord

/-- Processes one 64-byte block: message schedule, 64 compression rounds,
and addition of the previous state. -/
def processBlock (h0 : Hash8) (block : List Nat) : Hash8 :=
  let w := extendSchedule 48 (blockWords block)
  let st := (shaK.zip w).foldl compressRound h0
  ⟨w32 (h0.a + st.a), w32 (h0.b + st.b), w32 (h0.c + st.c), w32 (h0.d + st.d),
   w32 (h0.e + st.e), w32 (h0.f + st.f), w32 (h0.g + st.g), w32 (h0.h + st.h)⟩

/-- Big-endian 64-bit length field of the SHA-256 padding. -/
def lenBytes64 (bits : Nat) : List Nat :=
  [bits / 72057594037927936 % 256, bits / 281474976710656 % 256, bits / 1099511627776 % 256,
   bits / 4294967296 % 256, bits / 16777216 % 256, bits / 65536 % 256, bits / 256 % 256, bits % 256]

/-- SHA-256 message padding: a 0x80 byte, zeros up to 56 modulo 64, then the
bit length in 8 big-endian bytes. -/
def shaPad (msg : List Nat) : List Nat :=
  msg ++ [128] ++ List.replicate ((119 - msg.length % 64) % 64) 0 ++ lenBytes64 (8 * msg.length)

/-- Big-endian bytes of a 32-bit word. -/
def wordBytes (x : Nat) : List Nat :=
  [x / 16777216 % 256, x / 65536 % 256, x / 256 % 256, x % 256]

/-- SHA-256 digest (32 bytes) of a byte list. -/
def sha256 (msg : List Nat) : List Nat :=
  let hf := (chunkList 63 (shaPad msg)).foldl processBlock shaInit
  wordBytes hf.a ++ wordBytes hf.b ++ wordBytes hf.c ++ wordBytes hf.d ++
  wordBytes hf.e ++ wordBytes hf.f ++ wordBytes hf.g ++ wordBytes hf.h

/-- The eight bits of a byte, most significant first. -/
def byteBits (b : Nat) : List Bool :=
  [b.testBit 7, b.testBit 6, b.testBit 5, b.testBit 4,
   b.testBit 3, b.testBit 2, b.testBit 1, b.testBit 0]

/-- Value of a big-endian bit group. -/
def bitsVal (l : List Bool) : Nat :=
  l.foldl (fun acc bit => 2 * acc + (if bit then 1 else 0)) 0

/-- The base32 extended-hex alphabet used by the encoding in the source. -/
def b32hexAlphabet : List Char := "0123456789ABCDEFGHIJKLMNOPQRSTUV".toList

/-- The alphabet character of one 5-bit group; a short final group is padded
with zero bits on the right, as the unpadded Go encoding does. -/
def groupChar (g : List Bool) : Char :=
  b32hexAlphabet.getD (bitsVal (g ++ List.replicate (5 - g.length) false)) '0'

/-- Unpadded base32 encoding with the extended-hex alphabet, as
base32.HexEncoding.WithPadding(base32.NoPadding) in the source. -/
def base32HexNoPad (bytes : List Nat) : List Char :=
  (chunkList 4 (bytes.flatMap byteBits)).map groupChar

/-- The hashed fallback name of the source: the lower-cased unpadded base32hex
encoding of the first 15 bytes of the SHA-256 digest of the endpoint name. -/
def hashedIPName (endpointName : String) : String :=
  String.mk ((base32HexNoPad ((sha256 (strBytes endpointName)).take 15)).map Char.toLower)

/-- The effective name chosen by MakeIPSharingKey: the endpoint name itself
when it matches the allowed regular expression, else the hashed fallback. -/
def effectiveIPName (endpointName : String) : String :=
  if allowedIPEndpointNameMatches endpointName then endpointName
  else hashedIPName endpointName

/-- MakeIPSharingKey from the source: owner address, the literal "-ip-",
and the effective name. -/
def MakeIPSharingKey (lID : LeaseID) (endpointName : String) : String :=
  lID.owner ++ "-ip-" ++ effectiveIPName endpointName

/-- Writing a string to the SHA-256 hasher, with the error possibility of the
io.WriteString signature made explicit.  Modelled from the documented Go
hash.Hash contract: Write never returns an error, so the result is always ok. -/
def hashWriteString (s : String) : Except String (List Nat) :=
  Except.ok (sha256 (strBytes s))

/-- MakeIPSharingKey with the panic branch of the source made explicit:
none is the panic taken on a hash-write error. -/
def MakeIPSharingKeySafe (lID : LeaseID) (endpointName : String) : Option String :=
  if allowedIPEndpointNameMatches endpointName then
    some (lID.owner ++ "-ip-" ++ endpointName)
  else
    match hashWriteString endpointName with
    | Except.error _ => none
    | Except.ok digest =>
      some (lID.owner ++ "-ip-" ++ String.mk ((base32HexNoPad (digest.take 15)).map Char.toLower))

/-- Order identifier: owner, dseq, gseq, oseq. -/
structure OrderID where
  owner : String
  dseq : Nat
  gseq : Nat
  oseq : Nat
  deriving DecidableEq

/-- Endpoint kinds of a resource group; LEASED_IP is the externally
routable IP class. -/
inductive EndpointKind
  | sharedHTTP
  | randomPort
  | leasedIP
  deriving DecidableEq

/-- Requested resource units of an order, immutable post-order. -/
structure ResourceGroup where
  cpu : Nat
  memory : Nat
  storage : Nat
  gpu : Nat
  endpoints : List EndpointKind
  deriving DecidableEq

/-- Modelled from the spec: GetEndpointQuantityOfResourceGroup of cluster/util
is not among the sources at hand; the spec defines the endpoint quantity as
the count of leased-IP endpoints in the group. -/
def GetEndpointQuantityOfResourceGroup (g : ResourceGroup) (kind : EndpointKind) : Nat :=
  (g.endpoints.filter (fun e => e == kind)).length

/-- The reservation record of the source: order, resources, allocated flag,
leased-IP endpoint quantity, and IP confirmation flag. -/
structure Reservation where
  order : OrderID
  resources : ResourceGroup
  allocated : Bool
  endpointQuantity : Nat
  ipsConfirmed : Bool
  deriving DecidableEq

/-- newReservation from the source: stores the order and the resources,
computes the leased-IP endpoint quantity, and leaves allocated and
ipsConfirmed at the Go zero value false. -/
def newReservation (order : OrderID) (resources : ResourceGroup) : Reservation :=
  { order := order
    resources := resources
    allocated := false
    endpointQuantity := GetEndpointQuantityOfResourceGroup resources EndpointKind.leasedIP
    ipsConfirmed := false }

/-- The resource classes tracked by the inventory. -/
inductive ResClass
  | cpu
  | memory
  | storage
  | gpu
  | leasedIP
  deriving DecidableEq

/-- All resource classes. -/
def resClasses : List ResClass :=
  [ResClass.cpu, ResClass.memory, ResClass.storage, ResClass.gpu, ResClass.leasedIP]

/-- Quantity a resource group requests in one class. -/
def quantity (g : ResourceGroup) : ResClass → Nat
  | ResClass.cpu => g.cpu
  | ResClass.memory => g.memory
  | ResClass.storage => g.storage
  | ResClass.gpu => g.gpu
  | ResClass.leasedIP => GetEndpointQuantityOfResourceGroup g EndpointKind.leasedIP

/-- Advertised capacity per resource class. -/
structure Capacity where
  cpu : Nat
  memory : Nat
  storage : Nat
  gpu : Nat
  leasedIP : Nat
  deriving DecidableEq

/-- Capacity of one class. -/
def capOf (cap : Capacity) : ResClass → Nat
  | ResClass.cpu => cap.cpu
  | ResClass.memory => cap.memory
  | ResClass.storage => cap.storage
  | ResClass.gpu => cap.gpu
  | ResClass.leasedIP => cap.leasedIP

/-- The inventory tracker state: advertised capacity and the reservation
table.  Modelled from the spec; the registry implementation is not among the
sources at hand. -/
structure Inventory where
  capacity : Capacity
  reservations : List Reservation
  deriving DecidableEq

/-- Sum of the quantities of the allocated reservations of a list, in one
class. -/
def resSum (l : List Reservation) (c : ResClass) : Nat :=
  ((l.filter (fun r => r.allocated)).map (fun r => quantity r.resources c)).sum

/-- Sum of committed quantities in one class: the quantities of the
reservations with allocated set. -/
def committedTotal (inv : Inventory) (c : ResClass) : Nat :=
  resSum inv.reservations c

/-- Capacity check of a group against the committed totals. -/
def fits (inv : Inventory) (g : ResourceGroup) : Bool :=
  resClasses.all (fun c => committedTotal inv c + quantity g c ≤ capOf inv.capacity c)

/-- Modelled from the spec: Reserve creates an unallocated reservation from
newReservation if the optimistic headroom check allows; at most one
reservation per order, so an already reserved order is refused. -/
def reserve (inv : Inventory) (o : OrderID) (g : ResourceGroup) : Option Inventory :=
  if inv.reservations.any (fun r => r.order == o) then none
  else if fits inv g then
    some { inv with reservations := newReservation o g :: inv.reservations }
  else none

/-- Modelled from the spec: Allocate commits the group against the running
totals after an authoritative capacity re-check; not-found and insufficient
capacity are errors, and an already allocated reservation is an ok no-op. -/
def allocate (inv : Inventory) (o : OrderID) : Option Inventory :=
  match inv.reservations.find? (fun r => r.order == o) with
  | none => none
  | some r =>
    if r.allocated then some inv
    else if fits inv r.resources then
      some { inv with reservations :=
        inv.reservations.map (fun q => if q.order == o then { q with allocated := true } else q) }
    else none

/-- Modelled from the spec: Unreserve releases and removes the reservation,
and is a no-op on an unknown order. -/
def unreserve (inv : Inventory) (o : OrderID) : Inventory :=
  { inv with reservations := inv.reservations.filter (fun r => !(r.order == o)) }

/-- One registry operation. -/
inductive InvOp
  | reserveOp (o : OrderID) (g : ResourceGroup)
  | allocateOp (o : OrderID)
  | unreserveOp (o : OrderID)

/-- Applies one operation; a failed reserve or allocate leaves the state
unchanged. -/
def applyOp (inv : Inventory) : InvOp → Inventory
  | InvOp.reserveOp o g => (reserve inv o g).getD inv
  | InvOp.allocateOp o => (allocate inv o).getD inv
  | InvOp.unreserveOp o => unreserve inv o

/-- Runs a sequence of operations. -/
def runOps (inv : Inventory) (ops : List InvOp) : Inventory := ops.foldl applyOp inv

/-- The initial inventory: the advertised capacity and no reservations. -/
def initInventory (cap : Capacity) : Inventory := ⟨cap, []⟩

/-- The stable error set of the exec operation. -/
inductive ExecError
  | noSuchService
  | podIndexOutOfRange
  | commandNotFound
  | nonZeroExit
  deriving DecidableEq

/-- The orchestration backend as the exec operation sees it: deployed services
with their replica counts, and the behaviour of commands inside them. -/
structure ExecBackend where
  services : List (String × Nat)
  cmdKnown : String → String → Bool
  exitCode : String → String → Nat
  output : String → String → String

/-- Replica count of a service, none when no such service is deployed. -/
def lookupService (b : ExecBackend) (name : String) : Option Nat :=
  (b.services.find? (fun p => p.1 == name)).map (fun p => p.2)

/-- Modelled from the spec: Exec returns the stream on success and translates
every backend failure into the stable error set. -/
def execRun (b : ExecBackend) (service : String) (replicaIndex : Nat) (command : String) :
    Except ExecError String :=
  match lookupService b service with
  | none => Except.error ExecError.noSuchService
  | some n =>
    if n ≤ replicaIndex then Except.error ExecError.podIndexOutOfRange
    else if !(b.cmdKnown service command) then Except.error ExecError.commandNotFound
    else if b.exitCode service command != 0 then Except.error ExecError.nonZeroExit
    else Except.ok (b.output service command)

/-- The hostname binding table of the allocation service: each entry binds a
hostname to a lease.  During a transfer a hostname may momentarily have two
entries. -/
abbrev HostBindings := List (String × LeaseID)

/-- The leases a hostname is currently bound to. -/
def ownersOf (s : HostBindings) (h : String) : List LeaseID :=
  (s.filter (fun p => p.1 == h)).map (fun p => p.2)

/-- Whether a lease holds a hostname. -/
def holdsHostname (s : HostBindings) (h : String) (l : LeaseID) : Bool :=
  (ownersOf s h).contains l

/-- Modelled from the spec: ReserveHostnames conflicts when the hostname is
bound to another lease, and is idempotent per hostname and lease. -/
def reserveHostname (s : HostBindings) (h : String) (l : LeaseID) : Option HostBindings :=
  if (ownersOf s h).any (fun l2 => !(l2 == l)) then none
  else if holdsHostname s h l then some s
  else some ((h, l) :: s)

/-- Modelled from the spec: PrepareHostnamesForTransfer stages the hostname on
the destination lease without removing it from the source. -/
def prepareTransfer (s : HostBindings) (h : String) (dst : LeaseID) : HostBindings :=
  if holdsHostname s h dst then s else (h, dst) :: s

/-- Modelled from the spec: the hostname release scoped to one hostname,
issued against one lease. -/
def releaseHostname (s : HostBindings) (h : String) (l : LeaseID) : HostBindings :=
  s.filter (fun p => !(p.1 == h && p.2 == l))

/-- The lower-case image of the base32 extended-hex alphabet. -/
def b32lowerAlphabet : List Char := "0123456789abcdefghijklmnopqrstuv".toList

/-- The orders of the reservations of a list. -/
def ordersOf (l : List Reservation) : List OrderID := l.map (fun r => r.order)

/-- Well-formedness of an inventory: at most one reservation per order, and
committed totals within capacity in every class. -/
def InvWF (inv : Inventory) : Prop :=
  (ordersOf inv.reservations).Nodup ∧ ∀ c, committedTotal inv c ≤ capOf inv.capacity c

/-! Arithmetic and character facts about the digest encoding. -/

theorem sha256_length (msg : List Nat) : (sha256 msg).length = 32 := by
  simp [sha256, wordBytes]

theorem flatMap_byteBits_length (bs : List Nat) : (bs.flatMap byteBits).length = 8 * bs.length := by
  induction bs with
  | nil => simp
  | cons b t ih => simp [byteBits, ih]; omega

theorem chunkList4_length_aux :
    ∀ (k : Nat) (l : List Bool), l.length ≤ k → (chunkList 4 l).length = (l.length + 4) / 5 := by
  intro k
  induction k with
  | zero =>
    intro l hl
    have hnil : l = [] := List.eq_nil_of_length_eq_zero (Nat.le_zero.mp hl)
    subst hnil
    simp [chunkList]
  | succ k ih =>
    intro l hl
    cases l with
    | nil => simp [chunkList]
    | cons a t =>
      have hb : ((a :: t).drop 5).length ≤ k := by
        simp only [List.length_drop, List.length_cons]
        simp only [List.length_cons] at hl
        omega
      rw [chunkList, List.length_cons, ih _ hb]
      simp only [List.length_drop, List.length_cons]
      omega

theorem chunkList4_length (l : List Bool) : (chunkList 4 l).length = (l.length + 4) / 5 :=
  chunkList4_length_aux l.length l (Nat.le_refl _)

theorem base32HexNoPad_length15 (bytes : List Nat) (hl : bytes.length = 15) :
    (base32HexNoPad bytes).length = 24 := by
  unfold base32HexNoPad
  rw [List.length_map, chunkList4_length, flatMap_byteBits_length, hl]

theorem getD_self_or_mem (l : List Char) (n : Nat) (d : Char) :
    l.getD n d = d ∨ l.getD n d ∈ l := by
  induction l generalizing n with
  | nil => left; simp [List.getD]
  | cons a t ih =>
    cases n with
    | zero => right; simp [List.getD]
    | succ m =>
      rcases ih m with hcase | hcase
      · left; simpa [List.getD] using hcase
      · right; simp [List.getD] at hcase ⊢
        exact Or.inr hcase

theorem groupChar_mem (g : List Bool) : groupChar g ∈ b32hexAlphabet := by
  unfold groupChar
  rcases getD_self_or_mem b32hexAlphabet
      (bitsVal (g ++ List.replicate (5 - g.length) false)) '0' with hcase | hcase
  · rw [hcase]; decide
  · exact hcase

theorem toLower_alphabet_mem : ∀ c ∈ b32hexAlphabet, Char.toLower c ∈ b32lowerAlphabet := by
  decide

theorem lower_alphabet_allowed : ∀ c ∈ b32lowerAlphabet, isAllowedIPNameChar c = true := by
  decide

theorem hashedIPName_length (s : String) : (hashedIPName s).length = 24 := by
  have h15 : ((sha256 (strBytes s)).take 15).length = 15 := by
    simp [List.length_take, sha256_length]
  simp [hashedIPName, String.length, base32HexNoPad_length15 _ h15]

theorem hashedIPName_chars (s : String) :
    ∀ c ∈ (hashedIPName s).data, c ∈ b32lowerAlphabet := by
  intro c hc
  have hc2 : c ∈ (base32HexNoPad ((sha256 (strBytes s)).take 15)).map Char.toLower := hc
  rw [List.mem_map] at hc2
  rcases hc2 with ⟨x, hx, rfl⟩
  rw [base32HexNoPad, List.mem_map] at hx
  rcases hx with ⟨g, _, rfl⟩
  exact toLower_alphabet_mem _ (groupChar_mem g)

theorem hashedIPName_matches (s : String) :
    allowedIPEndpointNameMatches (hashedIPName s) = true := by
  unfold allowedIPEndpointNameMatches
  rw [Bool.and_eq_true]
  constructor
  · have hne : (hashedIPName s).data ≠ [] := by
      intro hnil
      have hlen : (hashedIPName s).length = 24 := hashedIPName_length s
      rw [String.length, hnil] at hlen
      simp at hlen
    rw [Bool.not_eq_true']
    rw [List.isEmpty_eq_false]
    exact hne
  · rw [List.all_eq_true]
    intro c hc
    exact lower_alphabet_allowed c (hashedIPName_chars s c hc)

/-! The claims about the IP sharing key. -/

/-- C2: for every lease and every endpoint name matching the allowed
character class, MakeIPSharingKey returns exactly owner ++ "-ip-" ++ name. -/
theorem makeIPSharingKey_conforming (lID : LeaseID) (name : String)
    (hmatch : allowedIPEndpointNameMatches name = true) :
    MakeIPSharingKey lID name = lID.owner ++ "-ip-" ++ name := by
  simp [MakeIPSharingKey, effectiveIPName, hmatch]

theorem makeIPSharingKey_conforming_witness :
    allowedIPEndpointNameMatches "web" = true ∧
      MakeIPSharingKey ⟨"akash1owner", 1, 2, 3, "akash1prov"⟩ "web" = "akash1owner-ip-web" :=
  ⟨by decide,
    (makeIPSharingKey_conforming ⟨"akash1owner", 1, 2, 3, "akash1prov"⟩ "web" (by decide)).trans
      (by decide)⟩

/-- C3: for every endpoint name that does not match the allowed class, the key
is the owner, "-ip-", and a digest of the name that has fixed length 24, is
lower-case, depends only on the name, and is identical across calls with the
same owner. -/
theorem makeIPSharingKey_nonconforming (l1 l2 : LeaseID) (name : String)
    (hno : allowedIPEndpointNameMatches name = false) (howner : l1.owner = l2.owner) :
    MakeIPSharingKey l1 name = l1.owner ++ "-ip-" ++ hashedIPName name ∧
    (hashedIPName name).length = 24 ∧
    (∀ c ∈ (hashedIPName name).data, c ∈ b32lowerAlphabet) ∧
    MakeIPSharingKey l1 name = MakeIPSharingKey l2 name := by
  refine ⟨?_, hashedIPName_length name, hashedIPName_chars name, ?_⟩
  · simp [MakeIPSharingKey, effectiveIPName, hno]
  · simp [MakeIPSharingKey, howner]

theorem makeIPSharingKey_nonconforming_witness :
    allowedIPEndpointNameMatches "My_Endpoint!" = false ∧
    ((⟨"o1", 1, 2, 3, "p1"⟩ : LeaseID).owner = (⟨"o1", 7, 8, 9, "p2"⟩ : LeaseID).owner) ∧
    (MakeIPSharingKey ⟨"o1", 1, 2, 3, "p1"⟩ "My_Endpoint!" =
        "o1" ++ "-ip-" ++ hashedIPName "My_Endpoint!" ∧
      (hashedIPName "My_Endpoint!").length = 24 ∧
      (∀ c ∈ (hashedIPName "My_Endpoint!").data, c ∈ b32lowerAlphabet) ∧
      MakeIPSharingKey ⟨"o1", 1, 2, 3, "p1"⟩ "My_Endpoint!" =
        MakeIPSharingKey ⟨"o1", 7, 8, 9, "p2"⟩ "My_Endpoint!") :=
  ⟨by decide, rfl,
    makeIPSharingKey_nonconforming ⟨"o1", 1, 2, 3, "p1"⟩ ⟨"o1", 7, 8, 9, "p2"⟩
      "My_Endpoint!" (by decide) rfl⟩

/-- C9: MakeIPSharingKey is total.  With the error possibility of the hash
write made explicit, the panic branch is never taken, the checked variant
always agrees with the total function, and the empty name (rejected by the
regular expression, which needs at least one character) takes the hash
fallback. -/
theorem makeIPSharingKey_total (lID : LeaseID) (name : String) :
    MakeIPSharingKeySafe lID name = some (MakeIPSharingKey lID name) ∧
    allowedIPEndpointNameMatches "" = false ∧
    MakeIPSharingKeySafe lID "" = some (lID.owner ++ "-ip-" ++ hashedIPName "") := by
  have hkey : ∀ nm, MakeIPSharingKeySafe lID nm = some (MakeIPSharingKey lID nm) := by
    intro nm
    by_cases hm : allowedIPEndpointNameMatches nm = true
    · simp [MakeIPSharingKeySafe, MakeIPSharingKey, effectiveIPName, hm]
    · simp [MakeIPSharingKeySafe, MakeIPSharingKey, effectiveIPName, hashWriteString,
        hashedIPName, hm]
  refine ⟨hkey name, by decide, ?_⟩
  rw [hkey ""]
  simp [MakeIPSharingKey, effectiveIPName, show allowedIPEndpointNameMatches "" = false by decide]

/-- C10: every generated key has the form owner ++ "-ip-" ++ s where the
effective name s itself matches the allowed character class: conforming names
are used as-is and the hashed fallback consists of lower-case base32hex
characters. -/
theorem makeIPSharingKey_charset (lID : LeaseID) (name : String) :
    MakeIPSharingKey lID name = lID.owner ++ "-ip-" ++ effectiveIPName name ∧
    allowedIPEndpointNameMatches (effectiveIPName name) = true ∧
    (allowedIPEndpointNameMatches name = false →
      effectiveIPName name = hashedIPName name ∧ (hashedIPName name).length = 24) := by
  refine ⟨rfl, ?_, ?_⟩
  · by_cases hm : allowedIPEndpointNameMatches name = true
    · simp [effectiveIPName, hm]
    · simp [effectiveIPName, hm, hashedIPName_matches]
  · intro hno
    exact ⟨by simp [effectiveIPName, hno], hashedIPName_length name⟩

/-- C4: the reservation created on order evaluation is unallocated and
unconfirmed, stores the order and the resource group unchanged, and counts
the leased-IP endpoints of the group. -/
theorem newReservation_spec (o : OrderID) (g : ResourceGroup) :
    (newReservation o g).allocated = false ∧
    (newReservation o g).ipsConfirmed = false ∧
    (newReservation o g).order = o ∧
    (newReservation o g).resources = g ∧
    (newReservation o g).endpointQuantity =
      GetEndpointQuantityOfResourceGroup g EndpointKind.leasedIP :=
  ⟨rfl, rfl, rfl, rfl, rfl⟩

/-! Facts about the inventory tracker model. -/

theorem bool_eq_false {b : Bool} (h : ¬(b = true)) : b = false := by
  cases b
  · rfl
  · exact absurd rfl h

theorem find?_cons_pos {α : Type} (p : α → Bool) (a : α) (l : List α) (h : p a = true) :
    (a :: l).find? p = some a := by
  simp [List.find?_cons, h]

theorem find?_cons_neg {α : Type} (p : α → Bool) (a : α) (l : List α) (h : p a = false) :
    (a :: l).find? p = l.find? p := by
  simp [List.find?_cons, h]

theorem resSum_cons (r : Reservation) (l : List Reservation) (c : ResClass) :
    resSum (r :: l) c = (if r.allocated then quantity r.resources c else 0) + resSum l c := by
  by_cases h : r.allocated = true
  · simp [resSum, List.filter_cons, h]
  · simp [resSum, List.filter_cons, h]

theorem resSum_filter_le (p : Reservation → Bool) (l : List Reservation) (c : ResClass) :
    resSum (l.filter p) c ≤ resSum l c := by
  induction l with
  | nil => simp [resSum]
  | cons a t ih =>
    rw [List.filter_cons]
    by_cases hp : p a = true
    · rw [if_pos hp, resSum_cons, resSum_cons]
      exact Nat.add_le_add_left ih _
    · rw [if_neg hp, resSum_cons]
      exact Nat.le_trans ih (Nat.le_add_left _ _)

theorem not_reserved_forall {l : List Reservation} {o : OrderID}
    (h : l.any (fun r => r.order == o) = false) : ∀ r ∈ l, (r.order == o) = false := by
  intro r hr
  cases hv : (r.order == o) with
  | false => rfl
  | true => exact absurd hv (List.any_eq_false.mp h r hr)

theorem map_update_id :
    ∀ (l : List Reservation) (o : OrderID), (∀ r ∈ l, (r.order == o) = false) →
      l.map (fun q => if q.order == o then { q with allocated := true } else q) = l := by
  intro l
  induction l with
  | nil => intro o _; rfl
  | cons a t ih =>
    intro o h
    rw [List.map_cons, if_neg (by simp [h a (List.mem_cons_self a t)]),
      ih o (fun r hr => h r (List.mem_cons_of_mem a hr))]

theorem filter_ne_id :
    ∀ (l : List Reservation) (o : OrderID), (∀ r ∈ l, (r.order == o) = false) →
      l.filter (fun r => !(r.order == o)) = l := by
  intro l
  induction l with
  | nil => intro o _; rfl
  | cons a t ih =>
    intro o h
    rw [List.filter_cons, if_pos (by simp [h a (List.mem_cons_self a t)]),
      ih o (fun r hr => h r (List.mem_cons_of_mem a hr))]

theorem ordersOf_map_update (l : List Reservation) (o : OrderID) :
    ordersOf (l.map (fun q => if q.order == o then { q with allocated := true } else q)) =
      ordersOf l := by
  induction l with
  | nil => rfl
  | cons a t ih =>
    unfold ordersOf at ih ⊢
    rw [List.map_cons, List.map_cons, List.map_cons, ih]
    by_cases hv : (a.order == o) = true
    · rw [if_pos hv]
    · rw [if_neg hv]

theorem find?_map_update :
    ∀ (l : List Reservation) (o : OrderID) (r : Reservation),
      l.find? (fun q => q.order == o) = some r →
      (l.map (fun q => if q.order == o then { q with allocated := true } else q)).find?
          (fun q => q.order == o) =
        some (if r.order == o then { r with allocated := true } else r) := by
  intro l
  induction l with
  | nil => intro o r h; exact absurd h (by simp)
  | cons a t ih =>
    intro o r h
    rw [List.map_cons]
    by_cases hv : (a.order == o) = true
    · rw [@find?_cons_pos Reservation (fun q => q.order == o) a _ hv] at h
      injection h with h
      subst h
      rw [if_pos hv, @find?_cons_pos Reservation (fun q => q.order == o) { a with allocated := true } _ hv]
    · rw [@find?_cons_neg Reservation (fun q => q.order == o) a _ (bool_eq_false hv)] at h
      rw [if_neg hv, @find?_cons_neg Reservation (fun q => q.order == o) a _ (bool_eq_false hv)]
      exact ih o r h

theorem resSum_map_update (c : ResClass) :
    ∀ (l : List Reservation) (o : OrderID) (r : Reservation),
      (ordersOf l).Nodup →
      l.find? (fun q => q.order == o) = some r →
      r.allocated = false →
      resSum (l.map (fun q => if q.order == o then { q with allocated := true } else q)) c =
        resSum l c + quantity r.resources c := by
  intro l
  induction l with
  | nil => intro o r _ h _; exact absurd h (by simp)
  | cons a t ih =>
    intro o r hnd hf hna
    unfold ordersOf at hnd
    rw [List.map_cons, List.nodup_cons] at hnd
    rw [List.map_cons]
    by_cases hv : (a.order == o) = true
    · rw [@find?_cons_pos Reservation (fun q => q.order == o) a _ hv] at hf
      injection hf with hf
      subst hf
      have hto : ∀ q ∈ t, (q.order == o) = false := by
        intro q hq
        have ho : a.order = o := eq_of_beq hv
        cases hqv : (q.order == o) with
        | false => rfl
        | true =>
          exfalso
          apply hnd.1
          rw [ho, ← eq_of_beq hqv]
          exact List.mem_map_of_mem _ hq
      rw [map_update_id t o hto, if_pos hv, resSum_cons, resSum_cons, hna]
      simp
      omega
    · rw [@find?_cons_neg Reservation (fun q => q.order == o) a _ (bool_eq_false hv)] at hf
      rw [if_neg hv, resSum_cons, resSum_cons, ih o r hnd.2 hf hna]
      omega

theorem fits_spec {inv : Inventory} {g : ResourceGroup} (h : fits inv g = true) (c : ResClass) :
    committedTotal inv c + quantity g c ≤ capOf inv.capacity c := by
  have hm : c ∈ resClasses := by cases c <;> simp [resClasses]
  have h2 := List.all_eq_true.mp h c hm
  simpa using h2

theorem reserve_some_wf (inv inv2 : Inventory) (o : OrderID) (g : ResourceGroup)
    (h : reserve inv o g = some inv2) (hwf : InvWF inv) : InvWF inv2 := by
  unfold reserve at h
  by_cases ha : inv.reservations.any (fun r => r.order == o) = true
  · rw [if_pos ha] at h
    exact absurd h (by simp)
  · rw [if_neg ha] at h
    have ha2 : inv.reservations.any (fun r => r.order == o) = false := bool_eq_false ha
    by_cases hfit : fits inv g = true
    · rw [if_pos hfit] at h
      injection h with h
      subst h
      constructor
      · show (ordersOf (newReservation o g :: inv.reservations)).Nodup
        unfold ordersOf
        rw [List.map_cons, List.nodup_cons]
        constructor
        · intro hmem
          rw [List.mem_map] at hmem
          rcases hmem with ⟨r, hr, hro⟩
          have hfalse := not_reserved_forall ha2 r hr
          rw [show (newReservation o g).order = o from rfl] at hro
          rw [hro] at hfalse
          simp at hfalse
        · exact hwf.1
      · intro c
        show resSum (newReservation o g :: inv.reservations) c ≤ capOf inv.capacity c
        rw [resSum_cons]
        simp [newReservation]
        exact hwf.2 c
    · rw [if_neg hfit] at h
      exact absurd h (by simp)

theorem reserve_wf (inv : Inventory) (o : OrderID) (g : ResourceGroup) (hwf : InvWF inv) :
    InvWF ((reserve inv o g).getD inv) := by
  cases h : reserve inv o g with
  | none => exact hwf
  | some inv2 => exact reserve_some_wf inv inv2 o g h hwf

theorem allocate_some_wf (inv inv2 : Inventory) (o : OrderID)
    (h : allocate inv o = some inv2) (hwf : InvWF inv) : InvWF inv2 := by
  unfold allocate at h
  cases hf : inv.reservations.find? (fun r => r.order == o) with
  | none =>
    rw [hf] at h
    exact absurd h (by simp)
  | some r =>
    rw [hf] at h
    dsimp only at h
    by_cases ha : r.allocated = true
    · rw [if_pos ha] at h
      injection h with h
      subst h
      exact hwf
    · rw [if_neg ha] at h
      by_cases hfit : fits inv r.resources = true
      · rw [if_pos hfit] at h
        injection h with h
        subst h
        constructor
        · show (ordersOf (inv.reservations.map
            (fun q => if q.order == o then { q with allocated := true } else q))).Nodup
          rw [ordersOf_map_update]
          exact hwf.1
        · intro c
          show resSum (inv.reservations.map
            (fun q => if q.order == o then { q with allocated := true } else q)) c ≤
              capOf inv.capacity c
          rw [resSum_map_update c inv.reservations o r hwf.1 hf (bool_eq_false ha)]
          exact fits_spec hfit c
      · rw [if_neg hfit] at h
        exact absurd h (by simp)

theorem allocate_wf (inv : Inventory) (o : OrderID) (hwf : InvWF inv) :
    InvWF ((allocate inv o).getD inv) := by
  cases h : allocate inv o with
  | none => exact hwf
  | some inv2 => exact allocate_some_wf inv inv2 o h hwf

theorem unreserve_wf (inv : Inventory) (o : OrderID) (hwf : InvWF inv) :
    InvWF (unreserve inv o) := by
  constructor
  · have hsub : (ordersOf ((unreserve inv o).reservations)).Sublist (ordersOf inv.reservations) :=
      (List.filter_sublist _).map _
    exact List.Nodup.sublist hsub hwf.1
  · intro c
    exact Nat.le_trans (resSum_filter_le _ _ _) (hwf.2 c)

theorem applyOp_wf (inv : Inventory) (op : InvOp) (hwf : InvWF inv) : InvWF (applyOp inv op) := by
  cases op with
  | reserveOp o g => exact reserve_wf inv o g hwf
  | allocateOp o => exact allocate_wf inv o hwf
  | unreserveOp o => exact unreserve_wf inv o hwf

theorem reserve_some_capacity (inv inv2 : Inventory) (o : OrderID) (g : ResourceGroup)
    (h : reserve inv o g = some inv2) : inv2.capacity = inv.capacity := by
  unfold reserve at h
  by_cases ha : inv.reservations.any (fun r => r.order == o) = true
  · rw [if_pos ha] at h
    exact absurd h (by simp)
  · rw [if_neg ha] at h
    by_cases hfit : fits inv g = true
    · rw [if_pos hfit] at h
      injection h with h
      subst h
      rfl
    · rw [if_neg hfit] at h
      exact absurd h (by simp)

theorem allocate_some_capacity (inv inv2 : Inventory) (o : OrderID)
    (h : allocate inv o = some inv2) : inv2.capacity = inv.capacity := by
  unfold allocate at h
  cases hf : inv.reservations.find? (fun r => r.order == o) with
  | none =>
    rw [hf] at h
    exact absurd h (by simp)
  | some r =>
    rw [hf] at h
    dsimp only at h
    by_cases ha : r.allocated = true
    · rw [if_pos ha] at h
      injection h with h
      subst h
      rfl
    · rw [if_neg ha] at h
      by_cases hfit : fits inv r.resources = true
      · rw [if_pos hfit] at h
        injection h with h
        subst h
        rfl
      · rw [if_neg hfit] at h
        exact absurd h (by simp)

theorem applyOp_capacity (inv : Inventory) (op : InvOp) :
    (applyOp inv op).capacity = inv.capacity := by
  cases op with
  | reserveOp o g =>
    show ((reserve inv o g).getD inv).capacity = inv.capacity
    cases h : reserve inv o g with
    | none => rfl
    | some inv2 => exact reserve_some_capacity inv inv2 o g h
  | allocateOp o =>
    show ((allocate inv o).getD inv).capacity = inv.capacity
    cases h : allocate inv o with
    | none => rfl
    | some inv2 => exact allocate_some_capacity inv inv2 o h
  | unreserveOp o => rfl

theorem runOps_wf (ops : List InvOp) :
    ∀ inv : Inventory, InvWF inv → InvWF (runOps inv ops) := by
  induction ops with
  | nil => intro inv h; exact h
  | cons op t ih =>
    intro inv h
    exact ih (applyOp inv op) (applyOp_wf inv op h)

theorem runOps_capacity (ops : List InvOp) :
    ∀ inv : Inventory, (runOps inv ops).capacity = inv.capacity := by
  induction ops with
  | nil => intro inv; rfl
  | cons op t ih =>
    intro inv
    show (runOps (applyOp inv op) t).capacity = inv.capacity
    rw [ih (applyOp inv op), applyOp_capacity]

theorem initInventory_wf (cap : Capacity) : InvWF (initInventory cap) := by
  constructor
  · simp [initInventory, ordersOf]
  · intro c
    simp [initInventory, committedTotal, resSum]

/-- C1: for every advertised capacity, every sequence of reserve, allocate and
unreserve operations, and every resource class, the sum of quantities of the
reservations with allocated set never exceeds the advertised capacity of that
class. -/
theorem capacity_never_exceeded (cap : Capacity) (ops : List InvOp) (c : ResClass) :
    committedTotal (runOps (initInventory cap) ops) c ≤ capOf cap c := by
  have hwf := runOps_wf ops (initInventory cap) (initInventory_wf cap)
  have hcap := runOps_capacity ops (initInventory cap)
  have hle := hwf.2 c
  rw [hcap] at hle
  exact hle

/-- C5: a successful reserve, followed by a successful allocate and an
unreserve of the same order, restores the inventory tracker exactly to its
state before the reserve. -/
theorem reserve_allocate_unreserve_roundtrip (inv inv1 inv2 : Inventory) (o : OrderID)
    (g : ResourceGroup) (h1 : reserve inv o g = some inv1)
    (h2 : allocate inv1 o = some inv2) :
    unreserve inv2 o = inv := by
  unfold reserve at h1
  by_cases ha : inv.reservations.any (fun r => r.order == o) = true
  · rw [if_pos ha] at h1
    exact absurd h1 (by simp)
  · rw [if_neg ha] at h1
    have ha2 : inv.reservations.any (fun r => r.order == o) = false := bool_eq_false ha
    by_cases hfit : fits inv g = true
    · rw [if_pos hfit] at h1
      injection h1 with h1
      subst h1
      unfold allocate at h2
      dsimp only at h2
      have hne : ((newReservation o g).order == o) = true := by
        simp [newReservation]
      rw [@find?_cons_pos Reservation (fun q => q.order == o) (newReservation o g) _ hne] at h2
      dsimp only at h2
      rw [if_neg (show ¬((newReservation o g).allocated = true) from by
        simp [newReservation])] at h2
      by_cases hfit2 :
          fits { inv with reservations := newReservation o g :: inv.reservations }
            (newReservation o g).resources = true
      · rw [if_pos hfit2] at h2
        injection h2 with h2
        subst h2
        have hmap : (newReservation o g :: inv.reservations).map
            (fun q => if q.order == o then { q with allocated := true } else q) =
            { newReservation o g with allocated := true } :: inv.reservations := by
          rw [List.map_cons, map_update_id inv.reservations o (not_reserved_forall ha2)]
          simp [hne]
        have hfilter : ({ newReservation o g with allocated := true } :: inv.reservations).filter
            (fun r => !(r.order == o)) = inv.reservations := by
          simp [List.filter_cons, newReservation,
            filter_ne_id inv.reservations o (not_reserved_forall ha2)]
        show Inventory.mk inv.capacity
            (((newReservation o g :: inv.reservations).map
              (fun q => if q.order == o then { q with allocated := true } else q)).filter
              (fun r => !(r.order == o))) = inv
        rw [hmap, hfilter]
      · rw [if_neg hfit2] at h2
        exact absurd h2 (by simp)
    · rw [if_neg hfit] at h1
      exact absurd h1 (by simp)

theorem reserve_allocate_unreserve_roundtrip_witness :
    reserve (Inventory.mk (Capacity.mk 8 8 8 8 8) [])
        (OrderID.mk "tenant" 1 1 1) (ResourceGroup.mk 2 3 4 1 [EndpointKind.leasedIP]) =
      some (Inventory.mk (Capacity.mk 8 8 8 8 8)
        [Reservation.mk (OrderID.mk "tenant" 1 1 1)
          (ResourceGroup.mk 2 3 4 1 [EndpointKind.leasedIP]) false 1 false]) ∧
    allocate (Inventory.mk (Capacity.mk 8 8 8 8 8)
        [Reservation.mk (OrderID.mk "tenant" 1 1 1)
          (ResourceGroup.mk 2 3 4 1 [EndpointKind.leasedIP]) false 1 false])
        (OrderID.mk "tenant" 1 1 1) =
      some (Inventory.mk (Capacity.mk 8 8 8 8 8)
        [Reservation.mk (OrderID.mk "tenant" 1 1 1)
          (ResourceGroup.mk 2 3 4 1 [EndpointKind.leasedIP]) true 1 false]) ∧
    unreserve (Inventory.mk (Capacity.mk 8 8 8 8 8)
        [Reservation.mk (OrderID.mk "tenant" 1 1 1)
          (ResourceGroup.mk 2 3 4 1 [EndpointKind.leasedIP]) true 1 false])
        (OrderID.mk "tenant" 1 1 1) =
      Inventory.mk (Capacity.mk 8 8 8 8 8) [] :=
  ⟨by decide, by decide,
    reserve_allocate_unreserve_roundtrip
      (Inventory.mk (Capacity.mk 8 8 8 8 8) [])
      (Inventory.mk (Capacity.mk 8 8 8 8 8)
        [Reservation.mk (OrderID.mk "tenant" 1 1 1)
          (ResourceGroup.mk 2 3 4 1 [EndpointKind.leasedIP]) false 1 false])
      (Inventory.mk (Capacity.mk 8 8 8 8 8)
        [Reservation.mk (OrderID.mk "tenant" 1 1 1)
          (ResourceGroup.mk 2 3 4 1 [EndpointKind.leasedIP]) true 1 false])
      (OrderID.mk "tenant" 1 1 1) (ResourceGroup.mk 2 3 4 1 [EndpointKind.leasedIP])
      (by decide) (by decide)⟩

/-- C6: allocate is idempotent — after a successful allocate of an order,
allocating the same order again returns ok and leaves the registry state
unchanged. -/
theorem allocate_idempotent (inv inv1 : Inventory) (o : OrderID)
    (h : allocate inv o = some inv1) : allocate inv1 o = some inv1 := by
  unfold allocate at h
  cases hf : inv.reservations.find? (fun r => r.order == o) with
  | none =>
    rw [hf] at h
    exact absurd h (by simp)
  | some r =>
    rw [hf] at h
    dsimp only at h
    by_cases ha : r.allocated = true
    · rw [if_pos ha] at h
      injection h with h
      subst h
      simp [allocate, hf, ha]
    · rw [if_neg ha] at h
      by_cases hfit : fits inv r.resources = true
      · rw [if_pos hfit] at h
        injection h with h
        subst h
        have hro : (r.order == o) = true := by
          have htmp := List.find?_some hf
          exact htmp
        have hfind := find?_map_update inv.reservations o r hf
        rw [if_pos hro] at hfind
        unfold allocate
        dsimp only
        rw [hfind]
        dsimp only
        rw [if_pos rfl]
      · rw [if_neg hfit] at h
        exact absurd h (by simp)

theorem allocate_idempotent_witness :
    allocate (Inventory.mk (Capacity.mk 8 8 8 8 8)
        [Reservation.mk (OrderID.mk "tenant" 2 1 1) (ResourceGroup.mk 1 1 1 0 []) false 0 false])
        (OrderID.mk "tenant" 2 1 1) =
      some (Inventory.mk (Capacity.mk 8 8 8 8 8)
        [Reservation.mk (OrderID.mk "tenant" 2 1 1) (ResourceGroup.mk 1 1 1 0 []) true 0 false]) ∧
    allocate (Inventory.mk (Capacity.mk 8 8 8 8 8)
        [Reservation.mk (OrderID.mk "tenant" 2 1 1) (ResourceGroup.mk 1 1 1 0 []) true 0 false])
        (OrderID.mk "tenant" 2 1 1) =
      some (Inventory.mk (Capacity.mk 8 8 8 8 8)
        [Reservation.mk (OrderID.mk "tenant" 2 1 1) (ResourceGroup.mk 1 1 1 0 []) true 0 false]) :=
  ⟨by decide,
    allocate_idempotent
      (Inventory.mk (Capacity.mk 8 8 8 8 8)
        [Reservation.mk (OrderID.mk "tenant" 2 1 1) (ResourceGroup.mk 1 1 1 0 []) false 0 false])
      (Inventory.mk (Capacity.mk 8 8 8 8 8)
        [Reservation.mk (OrderID.mk "tenant" 2 1 1) (ResourceGroup.mk 1 1 1 0 []) true 0 false])
      (OrderID.mk "tenant" 2 1 1) (by decide)⟩

/-! The exec error taxonomy and the hostname migration protocol. -/

/-- C7: every failing exec input maps to its stable error — unknown service to
noSuchService, out-of-range replica index to podIndexOutOfRange, unknown
command to commandNotFound, non-zero exit to nonZeroExit — and every failure
is one of exactly these four errors. -/
theorem exec_error_taxonomy (b : ExecBackend) (service : String) (idx : Nat) (cmd : String)
    (n : Nat) :
    (lookupService b service = none →
      execRun b service idx cmd = Except.error ExecError.noSuchService) ∧
    (lookupService b service = some n → n ≤ idx →
      execRun b service idx cmd = Except.error ExecError.podIndexOutOfRange) ∧
    (lookupService b service = some n → idx < n → b.cmdKnown service cmd = false →
      execRun b service idx cmd = Except.error ExecError.commandNotFound) ∧
    (lookupService b service = some n → idx < n → b.cmdKnown service cmd = true →
      b.exitCode service cmd ≠ 0 →
      execRun b service idx cmd = Except.error ExecError.nonZeroExit) ∧
    (∀ e, execRun b service idx cmd = Except.error e →
      e = ExecError.noSuchService ∨ e = ExecError.podIndexOutOfRange ∨
        e = ExecError.commandNotFound ∨ e = ExecError.nonZeroExit) := by
  refine ⟨?_, ?_, ?_, ?_, ?_⟩
  · intro hl
    simp [execRun, hl]
  · intro hl hle
    simp [execRun, hl, hle]
  · intro hl hlt hcmd
    have hn : ¬(n ≤ idx) := Nat.not_le_of_lt hlt
    simp [execRun, hl, hn, hcmd]
  · intro hl hlt hcmd hexit
    have hn : ¬(n ≤ idx) := Nat.not_le_of_lt hlt
    simp [execRun, hl, hn, hcmd, hexit]
  · intro e _
    cases e with
    | noSuchService => exact Or.inl rfl
    | podIndexOutOfRange => exact Or.inr (Or.inl rfl)
    | commandNotFound => exact Or.inr (Or.inr (Or.inl rfl))
    | nonZeroExit => exact Or.inr (Or.inr (Or.inr rfl))

theorem exec_error_taxonomy_witness :
    execRun (ExecBackend.mk [("web", 2)] (fun _ c => c == "/bin/echo" || c == "/bin/cat")
        (fun _ c => if c == "/bin/cat" then 1 else 0) (fun _ _ => "foo"))
        "notaservice" 0 "/bin/echo" = Except.error ExecError.noSuchService ∧
    execRun (ExecBackend.mk [("web", 2)] (fun _ c => c == "/bin/echo" || c == "/bin/cat")
        (fun _ c => if c == "/bin/cat" then 1 else 0) (fun _ _ => "foo"))
        "web" 99 "/bin/echo" = Except.error ExecError.podIndexOutOfRange ∧
    execRun (ExecBackend.mk [("web", 2)] (fun _ c => c == "/bin/echo" || c == "/bin/cat")
        (fun _ c => if c == "/bin/cat" then 1 else 0) (fun _ _ => "foo"))
        "web" 0 "/bin/baz" = Except.error ExecError.commandNotFound ∧
    execRun (ExecBackend.mk [("web", 2)] (fun _ c => c == "/bin/echo" || c == "/bin/cat")
        (fun _ c => if c == "/bin/cat" then 1 else 0) (fun _ _ => "foo"))
        "web" 0 "/bin/cat" = Except.error ExecError.nonZeroExit :=
  ⟨(exec_error_taxonomy (ExecBackend.mk [("web", 2)]
      (fun _ c => c == "/bin/echo" || c == "/bin/cat")
      (fun _ c => if c == "/bin/cat" then 1 else 0) (fun _ _ => "foo"))
      "notaservice" 0 "/bin/echo" 0).1 (by decide),
    (exec_error_taxonomy (ExecBackend.mk [("web", 2)]
      (fun _ c => c == "/bin/echo" || c == "/bin/cat")
      (fun _ c => if c == "/bin/cat" then 1 else 0) (fun _ _ => "foo"))
      "web" 99 "/bin/echo" 2).2.1 (by decide) (by decide),
    (exec_error_taxonomy (ExecBackend.mk [("web", 2)]
      (fun _ c => c == "/bin/echo" || c == "/bin/cat")
      (fun _ c => if c == "/bin/cat" then 1 else 0) (fun _ _ => "foo"))
      "web" 0 "/bin/baz" 2).2.2.1 (by decide) (by decide) (by decide),
    (exec_error_taxonomy (ExecBackend.mk [("web", 2)]
      (fun _ c => c == "/bin/echo" || c == "/bin/cat")
      (fun _ c => if c == "/bin/cat" then 1 else 0) (fun _ _ => "foo"))
      "web" 0 "/bin/cat" 2).2.2.2.1 (by decide) (by decide) (by decide) (by decide)⟩

theorem ownersOf_cons_hit (s : HostBindings) (h : String) (l : LeaseID) :
    ownersOf ((h, l) :: s) h = l :: ownersOf s h := by
  simp [ownersOf, List.filter_cons]

theorem ownersOf_release (s : HostBindings) (h : String) (l : LeaseID) :
    ownersOf (releaseHostname s h l) h = (ownersOf s h).filter (fun x => !(x == l)) := by
  induction s with
  | nil => rfl
  | cons p t ih =>
    rcases p with ⟨ph, pl⟩
    by_cases h1 : ph = h
    · subst h1
      by_cases h2 : pl = l
      · subst h2
        simp [releaseHostname, ownersOf, List.filter_cons] at ih ⊢
        exact ih
      · simp [releaseHostname, ownersOf, List.filter_cons, h2] at ih ⊢
        exact ih
    · simp [releaseHostname, ownersOf, List.filter_cons, h1] at ih ⊢
      exact ih

/-- C8: hostname migration — with hostname h held by lease A, staging the
transfer to lease B succeeds while A still holds h; h is bound at every stage;
after the scoped release against A, B holds h and A does not; and at no stage
does a third lease C succeed in reserving h. -/
theorem hostname_migration (s0 : HostBindings) (h : String) (A B C : LeaseID)
    (hAB : A ≠ B) (hCA : C ≠ A) (hCB : C ≠ B)
    (hown : ownersOf s0 h = [A]) :
    holdsHostname (prepareTransfer s0 h B) h A = true ∧
    holdsHostname (prepareTransfer s0 h B) h B = true ∧
    ownersOf s0 h ≠ [] ∧
    ownersOf (prepareTransfer s0 h B) h ≠ [] ∧
    ownersOf (releaseHostname (prepareTransfer s0 h B) h A) h ≠ [] ∧
    holdsHostname (releaseHostname (prepareTransfer s0 h B) h A) h B = true ∧
    holdsHostname (releaseHostname (prepareTransfer s0 h B) h A) h A = false ∧
    reserveHostname s0 h C = none ∧
    reserveHostname (prepareTransfer s0 h B) h C = none ∧
    reserveHostname (releaseHostname (prepareTransfer s0 h B) h A) h C = none := by
  have hBA : B ≠ A := Ne.symm hAB
  have hB0 : holdsHostname s0 h B = false := by
    simp [holdsHostname, hown, hBA]
  have hs1 : prepareTransfer s0 h B = (h, B) :: s0 := by
    simp [prepareTransfer, hB0]
  have hown1 : ownersOf (prepareTransfer s0 h B) h = [B, A] := by
    rw [hs1, ownersOf_cons_hit, hown]
  have hown2 : ownersOf (releaseHostname (prepareTransfer s0 h B) h A) h = [B] := by
    rw [ownersOf_release, hown1]
    simp [List.filter_cons, hBA]
  have hAC : A ≠ C := Ne.symm hCA
  have hBC : B ≠ C := Ne.symm hCB
  refine ⟨?_, ?_, ?_, ?_, ?_, ?_, ?_, ?_, ?_, ?_⟩
  · simp [holdsHostname, hown1]
  · simp [holdsHostname, hown1]
  · rw [hown]
    simp
  · rw [hown1]
    simp
  · rw [hown2]
    simp
  · simp [holdsHostname, hown2]
  · simp [holdsHostname, hown2]
    exact hAB
  · simp [reserveHostname, hown, hAC]
  · simp [reserveHostname, hown1, hAC, hBC]
  · simp [reserveHostname, hown2, hBC]

theorem hostname_migration_witness :
    holdsHostname (prepareTransfer [("migrateme.com", LeaseID.mk "t" 1 1 1 "p")]
        "migrateme.com" (LeaseID.mk "t" 2 1 1 "p"))
        "migrateme.com" (LeaseID.mk "t" 1 1 1 "p") = true ∧
    holdsHostname (releaseHostname (prepareTransfer [("migrateme.com", LeaseID.mk "t" 1 1 1 "p")]
        "migrateme.com" (LeaseID.mk "t" 2 1 1 "p")) "migrateme.com" (LeaseID.mk "t" 1 1 1 "p"))
        "migrateme.com" (LeaseID.mk "t" 2 1 1 "p") = true ∧
    holdsHostname (releaseHostname (prepareTransfer [("migrateme.com", LeaseID.mk "t" 1 1 1 "p")]
        "migrateme.com" (LeaseID.mk "t" 2 1 1 "p")) "migrateme.com" (LeaseID.mk "t" 1 1 1 "p"))
        "migrateme.com" (LeaseID.mk "t" 1 1 1 "p") = false ∧
    reserveHostname [("migrateme.com", LeaseID.mk "t" 1 1 1 "p")] "migrateme.com"
        (LeaseID.mk "x" 9 1 1 "q") = none := by
  have hmain := hostname_migration [("migrateme.com", LeaseID.mk "t" 1 1 1 "p")]
    "migrateme.com" (LeaseID.mk "t" 1 1 1 "p") (LeaseID.mk "t" 2 1 1 "p")
    (LeaseID.mk "x" 9 1 1 "q") (by decide) (by decide) (by decide) (by decide)
  exact ⟨hmain.1, hmain.2.2.2.2.2.1, hmain.2.2.2.2.2.2.1, hmain.2.2.2.2.2.2.2.1⟩

end Provider
